import Mathlib

/-!
Verification of the timeframe aggregation and signal-realignment engine of
`investsmart_web/frontend/components/chart.py` and of the JSON data client
`investsmart_web/frontend/utils/json_client.py`.

Calendar dates are embedded as proleptic Gregorian (year, month, day) triples;
`pd.Timestamp` ordering and day arithmetic are embedded through the rata-die
day number `Date.toNum`.  Numeric values are embedded as rationals.
-/

/-- A calendar date, as parsed by `pd.to_datetime` from a `YYYY-MM-DD` string. -/
structure Date where
  y : Nat
  m : Nat
  d : Nat
deriving DecidableEq, Repr

/-- Gregorian leap-year test (`calendar.isleap` semantics used by pandas). -/
def isLeap (y : Nat) : Bool :=
  (y % 4 == 0 && y % 100 != 0) || y % 400 == 0

/-- Number of days in a month of a given year. -/
def daysInMonth (y m : Nat) : Nat :=
  match m with
  | 2 => if isLeap y then 29 else 28
  | 4 => 30
  | 6 => 30
  | 9 => 30
  | 11 => 30
  | _ => 31

/-- Days in the months of year `y` strictly before month `m`. -/
def monthDaysBefore (y m : Nat) : Nat :=
  ((List.range (m - 1)).map (fun i => daysInMonth y (i + 1))).sum

/-- Rata-die day number: `toNum ⟨1,1,1⟩ = 1`, so ordering and differences of
`pd.Timestamp`s coincide with ordering and differences of `toNum`. -/
def Date.toNum (dt : Date) : Nat :=
  365 * (dt.y - 1) + (dt.y - 1) / 4 + (dt.y - 1) / 400 - (dt.y - 1) / 100
    + monthDaysBefore dt.y dt.m + dt.d

/-- Weekday with Monday = 0, as `pd.Timestamp.weekday()`. -/
def Date.weekday (dt : Date) : Nat :=
  (dt.toNum + 6) % 7

/-- A well-formed proleptic Gregorian date. -/
def Date.ValidDate (dt : Date) : Prop :=
  1 ≤ dt.y ∧ 1 ≤ dt.m ∧ dt.m ≤ 12 ∧ 1 ≤ dt.d ∧ dt.d ≤ daysInMonth dt.y dt.m

instance (dt : Date) : Decidable dt.ValidDate := by
  unfold Date.ValidDate; infer_instance

/-- The calendar day after `dt`. -/
def nextDay (dt : Date) : Date :=
  if dt.d < daysInMonth dt.y dt.m then ⟨dt.y, dt.m, dt.d + 1⟩
  else if dt.m < 12 then ⟨dt.y, dt.m + 1, 1⟩
  else ⟨dt.y + 1, 1, 1⟩

/-- The calendar day before `dt`. -/
def prevDay (dt : Date) : Date :=
  if 1 < dt.d then ⟨dt.y, dt.m, dt.d - 1⟩
  else if 1 < dt.m then ⟨dt.y, dt.m - 1, daysInMonth dt.y (dt.m - 1)⟩
  else ⟨dt.y - 1, 12, 31⟩

/-- `dt + pd.Timedelta(days := n)`. -/
def addDays (dt : Date) : Nat → Date
  | 0 => dt
  | n + 1 => addDays (nextDay dt) n

/-- `dt - pd.Timedelta(days := n)`. -/
def subDays (dt : Date) : Nat → Date
  | 0 => dt
  | n + 1 => subDays (prevDay dt) n

/-- The weekly bucket boundary used throughout `chart.py`:
`orig_date + pd.Timedelta(days=(4 - orig_date.weekday()) % 7)` in
`map_signals_to_timeframe`, equally the label given by `resample('W-FRI')`.
For a weekday `w : 0..6`, Python `(4 - w) % 7 = (11 - w) % 7`. -/
def weekBucket (dt : Date) : Date :=
  addDays dt ((11 - dt.weekday) % 7)

/-- The monthly bucket boundary: `orig_date + pd.offsets.MonthEnd(0)` in
`map_signals_to_timeframe`, equally the label given by `resample('M')`. -/
def monthBucket (dt : Date) : Date :=
  ⟨dt.y, dt.m, daysInMonth dt.y dt.m⟩

theorem daysInMonth_bounds (y m : Nat) : 28 ≤ daysInMonth y m ∧ daysInMonth y m ≤ 31 := by
  unfold daysInMonth
  split <;> first
    | (constructor <;> omega)
    | (split <;> constructor <;> omega)

theorem monthDaysBefore_succ (y m : Nat) (hm : 1 ≤ m) :
    monthDaysBefore y (m + 1) = monthDaysBefore y m + daysInMonth y m := by
  unfold monthDaysBefore
  have h1 : m + 1 - 1 = (m - 1) + 1 := by omega
  rw [h1, List.range_succ, List.map_append, List.sum_append]
  have h2 : m - 1 + 1 = m := by omega
  simp [h2]

theorem monthDaysBefore_twelve (y : Nat) :
    monthDaysBefore y 12 = 334 + (if isLeap y then 1 else 0) := by
  by_cases h : isLeap y <;>
    simp [monthDaysBefore, List.range_succ, daysInMonth, h]

/-- Leap-year day-count identity used when a year rolls over. -/
theorem yearRollover (y : Nat) (hy : 1 ≤ y) :
    365 * y + y / 4 + y / 400 - y / 100 + 1
      = 365 * (y - 1) + (y - 1) / 4 + (y - 1) / 400 - (y - 1) / 100
        + (334 + (if isLeap y then 1 else 0)) + 31 + 1 := by
  have hyy : y - 1 + 1 = y := by omega
  have h4 : y / 4 = (y - 1) / 4 + if y % 4 = 0 then 1 else 0 := by
    conv_lhs => rw [← hyy]
    rw [Nat.succ_div, hyy]
    have hiff : (4 ∣ y) ↔ y % 4 = 0 := by omega
    simp only [hiff]
  have h100 : y / 100 = (y - 1) / 100 + if y % 100 = 0 then 1 else 0 := by
    conv_lhs => rw [← hyy]
    rw [Nat.succ_div, hyy]
    have hiff : (100 ∣ y) ↔ y % 100 = 0 := by omega
    simp only [hiff]
  have h400 : y / 400 = (y - 1) / 400 + if y % 400 = 0 then 1 else 0 := by
    conv_lhs => rw [← hyy]
    rw [Nat.succ_div, hyy]
    have hiff : (400 ∣ y) ↔ y % 400 = 0 := by omega
    simp only [hiff]
  rcases Nat.decEq (y % 4) 0 with h4z | h4z <;>
    rcases Nat.decEq (y % 100) 0 with h100z | h100z <;>
      rcases Nat.decEq (y % 400) 0 with h400z | h400z <;>
        simp_all [isLeap] <;> omega

/-- Stepping to the next calendar day adds one to the rata-die number and
preserves validity. -/
theorem nextDay_toNum_valid (dt : Date) (h : dt.ValidDate) :
    (nextDay dt).toNum = dt.toNum + 1 ∧ (nextDay dt).ValidDate := by
  obtain ⟨hy, hm1, hm12, hd1, hdM⟩ := h
  unfold nextDay
  by_cases hlt : dt.d < daysInMonth dt.y dt.m
  · simp only [if_pos hlt]
    constructor
    · simp only [Date.toNum]
      omega
    · refine ⟨hy, hm1, hm12, ?_, ?_⟩ <;> dsimp only <;> omega
  · simp only [if_neg hlt]
    have hdEq : dt.d = daysInMonth dt.y dt.m := by omega
    by_cases hm : dt.m < 12
    · simp only [if_pos hm]
      constructor
      · simp only [Date.toNum]
        rw [monthDaysBefore_succ dt.y dt.m hm1]
        omega
      · have hb := daysInMonth_bounds dt.y (dt.m + 1)
        refine ⟨hy, ?_, ?_, ?_, ?_⟩ <;> dsimp only <;> omega
    · have hm12' : dt.m = 12 := by omega
      simp only [if_neg hm]
      constructor
      · simp only [Date.toNum]
        rw [hm12'] at hdEq ⊢
        have h31 : dt.d = 31 := by
          rw [hdEq]; simp [daysInMonth]
        have hmb1 : monthDaysBefore (dt.y + 1) 1 = 0 := by
          simp [monthDaysBefore]
        rw [hmb1, monthDaysBefore_twelve, h31]
        have hyr := yearRollover dt.y hy
        simp only [Nat.add_sub_cancel]
        omega
      · have hb := daysInMonth_bounds (dt.y + 1) 1
        refine ⟨?_, ?_, ?_, ?_, ?_⟩ <;> dsimp only <;> omega

/-- Adding `n` days adds `n` to the rata-die number and preserves validity. -/
theorem addDays_toNum_valid (n : Nat) :
    ∀ dt : Date, dt.ValidDate → (addDays dt n).toNum = dt.toNum + n ∧ (addDays dt n).ValidDate := by
  induction n with
  | zero => intro dt h; exact ⟨rfl, h⟩
  | succ k ih =>
    intro dt h
    obtain ⟨hstep, hvalid⟩ := nextDay_toNum_valid dt h
    obtain ⟨hnum, hval⟩ := ih (nextDay dt) hvalid
    refine ⟨?_, hval⟩
    show (addDays (nextDay dt) k).toNum = dt.toNum + (k + 1)
    omega

/-!
## Data model of `chart.py`

A dataset as produced by `InvestSmartJSONClient.get_signals_data` and consumed
by `resample_data_to_timeframe`: the `'data'` sub-dict is flattened into the
five OHLCV fields; `signals` and `indicators` are association lists mirroring
Python dict insertion order.
-/

/-- A trendline overlay, passed through aggregation verbatim. -/
structure Trendline where
  name : String
  color : String
  points : List (String × ℚ)
deriving DecidableEq, Repr

/-- The dataset dict handled by `resample_data_to_timeframe`. -/
structure Dataset where
  symbol : String
  dates : List Date
  opn : List ℚ
  high : List ℚ
  low : List ℚ
  close : List ℚ
  volume : List ℚ
  signals : List (String × List ℚ)
  indicators : List (String × List ℚ)
  trendlines : List Trendline
  last_updated : Option String
deriving DecidableEq, Repr

/-- The two pandas resample rules selected at `chart.py` lines 50–53. -/
inductive Rule where
  | wfri
  | monthEnd
deriving DecidableEq, Repr

/-- Bucket label assigned by pandas `resample` under each rule: `'W-FRI'`
labels a row by the Friday ending its Sat–Fri bin, `'M'` by its month end. -/
def ruleBucket : Rule → Date → Date
  | .wfri, d => weekBucket d
  | .monthEnd, d => monthBucket d

/-- Fallback when a daily date is out of range in index-based lookups. -/
def dummyDate : Date := ⟨1, 1, 1⟩

/-- Insert a bucket label into an ascending, duplicate-free axis
(comparisons through `Date.toNum`, i.e. chronological order). -/
def insertB (b : Date) : List Date → List Date
  | [] => [b]
  | x :: xs =>
    if b.toNum < x.toNum then b :: x :: xs
    else if b.toNum = x.toNum then x :: xs
    else x :: insertB b xs

/-- The distinct, ascending bucket labels of the rows: the index of
`df.resample(rule).agg(ohlc_dict).dropna()` (empty bins are dropped, so only
labels with at least one contributing row appear). -/
def bucketAxis (rule : Rule) (dates : List Date) : List Date :=
  (dates.map (ruleBucket rule)).foldl (fun acc b => insertB b acc) []

/-- Indices (in row order) of the daily rows falling in bucket `b`. -/
def bucketIdxs (rule : Rule) (dates : List Date) (b : Date) : List Nat :=
  (List.range dates.length).filter fun i =>
    (ruleBucket rule (dates.getD i dummyDate)).toNum = b.toNum

/-- pandas `'first'` aggregation over the group values. -/
def aggFirst (idxs : List Nat) (col : List ℚ) : ℚ :=
  (idxs.map fun i => col.getD i 0).headD 0

/-- pandas `'last'` aggregation over the group values. -/
def aggLast (idxs : List Nat) (col : List ℚ) : ℚ :=
  (idxs.map fun i => col.getD i 0).getLastD 0

/-- pandas `'max'` aggregation over the group values. -/
def aggMax (idxs : List Nat) (col : List ℚ) : ℚ :=
  match idxs.map fun i => col.getD i 0 with
  | [] => 0
  | v :: vs => vs.foldl max v

/-- pandas `'min'` aggregation over the group values. -/
def aggMin (idxs : List Nat) (col : List ℚ) : ℚ :=
  match idxs.map fun i => col.getD i 0 with
  | [] => 0
  | v :: vs => vs.foldl min v

/-- pandas `'sum'` aggregation over the group values. -/
def aggSum (idxs : List Nat) (col : List ℚ) : ℚ :=
  (idxs.map fun i => col.getD i 0).sum

/-!
## `map_signals_to_timeframe` (`chart.py` lines 128–189)
-/

/-- The coarse boundary computed for one daily date at lines 157–171:
`week_end = orig_date + pd.Timedelta(days=(4 - orig_date.weekday()) % 7)` for
weekly, `month_end = orig_date + pd.offsets.MonthEnd(0)` for monthly; any
other timeframe hits the `else: continue` branch. -/
def computedBoundary (timeframe : String) (d : Date) : Option Date :=
  if timeframe = "weekly" then some (weekBucket d)
  else if timeframe = "monthly" then some (monthBucket d)
  else none

/-- `numpy`/pandas `searchsorted` with `side='left'` on an ascending axis:
the number of axis entries strictly before `b`. -/
def searchsortedLeft (axis : List Date) (b : Date) : Nat :=
  (axis.filter fun x => x.toNum < b.toNum).length

/-- Resolution of a daily date to a coarse index (lines 157–182):
`resampled_dt.get_loc` on exact match, else `searchsorted` and step one left;
`None` models the `continue` that drops the entry. -/
def dailyIdx (timeframe : String) (axis : List Date) (d : Date) : Option Nat :=
  match computedBoundary timeframe d with
  | none => none
  | some b =>
    match axis.findIdx? (fun x => x.toNum = b.toNum) with
    | some k => some k
    | none =>
      let c := searchsortedLeft axis b
      if 0 < c then some (c - 1) else none

/-- Remap of one daily signal series onto the coarse axis (lines 149–189):
slots start at `[0] * len(resampled_dates)`; iterating daily rows in order,
each in-range nonzero value is written over slot `dailyIdx` of its date. -/
def mapSignal (timeframe : String) (axis : List Date) (origDates : List Date)
    (vals : List ℚ) : List ℚ :=
  (List.range origDates.length).foldl
    (fun acc i =>
      match dailyIdx timeframe axis (origDates.getD i dummyDate) with
      | some k => if i < vals.length ∧ vals.getD i 0 ≠ 0 then acc.set k (vals.getD i 0) else acc
      | none => acc)
    (List.replicate axis.length 0)

/-- `map_signals_to_timeframe`: daily is a passthrough (lines 142–143);
otherwise every signal series is remapped to the coarse axis. -/
def map_signals_to_timeframe (original_signals : List (String × List ℚ))
    (original_dates : List Date) (resampled_dates : List Date)
    (timeframe : String) : List (String × List ℚ) :=
  if timeframe = "daily" then original_signals
  else original_signals.map fun p =>
    (p.1, mapSignal timeframe resampled_dates original_dates p.2)

/-!
## Composite (FCV) resampling (`chart.py` lines 74–104)
-/

/-- The window `[week_start, week_end]` computed at lines 82–90 for one
resampled date: `[b − 6 days, b]` for weekly, `[day-1 of b's month, b]` for
monthly, `[b, b]` otherwise. -/
def fcvWindow (timeframe : String) (b : Date) : Date × Date :=
  if timeframe = "weekly" then (subDays b 6, b)
  else if timeframe = "monthly" then (⟨b.y, b.m, 1⟩, b)
  else (b, b)

/-- Resample of the `Final_Composite_Value` series: for each resampled date,
collect the in-window daily values (guarding `j < len(indicator_values)`) and
keep the last, defaulting to `0` for an empty window. -/
def resampleFCV (timeframe : String) (origDates : List Date) (vals : List ℚ)
    (axis : List Date) : List ℚ :=
  axis.map fun b =>
    let w := fcvWindow timeframe b
    let period := (List.range origDates.length).filterMap fun j =>
      if (w.1.toNum ≤ (origDates.getD j dummyDate).toNum
            ∧ (origDates.getD j dummyDate).toNum ≤ w.2.toNum
            ∧ j < vals.length)
      then some (vals.getD j 0) else none
    period.getLastD 0

/-!
## `resample_data_to_timeframe` (`chart.py` lines 23–125)
-/

/-- The weekly/monthly branch of `resample_data_to_timeframe` after the
DataFrame has been built and a resample rule selected. -/
def resampleCore (data : Dataset) (rule : Rule) (timeframe : String) : Dataset :=
  let axis := bucketAxis rule data.dates
  { symbol := data.symbol
    dates := axis
    opn := axis.map fun b => aggFirst (bucketIdxs rule data.dates b) data.opn
    high := axis.map fun b => aggMax (bucketIdxs rule data.dates b) data.high
    low := axis.map fun b => aggMin (bucketIdxs rule data.dates b) data.low
    close := axis.map fun b => aggLast (bucketIdxs rule data.dates b) data.close
    volume := axis.map fun b => aggSum (bucketIdxs rule data.dates b) data.volume
    signals := map_signals_to_timeframe data.signals data.dates axis timeframe
    indicators := data.indicators.map fun p =>
      if p.1 = "Final_Composite_Value" ∧ 0 < p.2.length
      then (p.1, resampleFCV timeframe data.dates p.2 axis)
      else p
    trendlines := data.trendlines
    last_updated := data.last_updated }

/-- `pd.DataFrame` at lines 39–46 accepts the dict of columns iff all six
arrays share one length. -/
def sameLengths (data : Dataset) : Bool :=
  (data.opn.length == data.dates.length) && (data.high.length == data.dates.length)
    && (data.low.length == data.dates.length) && (data.close.length == data.dates.length)
    && (data.volume.length == data.dates.length)

/-- `resample_data_to_timeframe`: daily returns the input at once (line 34);
otherwise the DataFrame is built (raising pandas' generic length error on
column mismatch), then the rule dispatch at lines 50–55 resamples for
weekly/monthly and returns the input unchanged for any other token. -/
def resample_data_to_timeframe (data : Dataset) (timeframe : String) :
    Except String Dataset :=
  if timeframe = "daily" then .ok data
  else if sameLengths data = false then .error "All arrays must be of the same length"
  else if timeframe = "weekly" then .ok (resampleCore data .wfri "weekly")
  else if timeframe = "monthly" then .ok (resampleCore data .monthEnd "monthly")
  else .ok data

/-!
## `_create_candlestick_chart` shape handling (`chart.py` lines 332–343)
-/

/-- `min_length` at line 333: minimum over dates and four price arrays
(volume is not included). -/
def chart_min_length (sd : Dataset) : Nat :=
  min sd.dates.length (min sd.opn.length (min sd.high.length
    (min sd.low.length sd.close.length)))

/-- Lines 339–343: all five arrays are silently sliced to `min_length`. -/
def chartTruncate (sd : Dataset) : List Date × List ℚ × List ℚ × List ℚ × List ℚ :=
  (sd.dates.take (chart_min_length sd),
   sd.opn.take (chart_min_length sd),
   sd.high.take (chart_min_length sd),
   sd.low.take (chart_min_length sd),
   sd.close.take (chart_min_length sd))

/-!
## Well-formedness of a daily dataset (spec §3 / §6)
-/

/-- Strictly ascending chronological order of a date axis. -/
def DatesSorted (l : List Date) : Prop :=
  List.Pairwise (fun a b => a.toNum < b.toNum) l

instance (l : List Date) : Decidable (DatesSorted l) := by
  unfold DatesSorted; infer_instance

/-- A well-formed daily dataset: strictly ascending valid dates and all
per-field arrays parallel to the date axis. -/
def WellFormed (ds : Dataset) : Prop :=
  DatesSorted ds.dates
    ∧ (∀ d ∈ ds.dates, d.ValidDate)
    ∧ ds.opn.length = ds.dates.length
    ∧ ds.high.length = ds.dates.length
    ∧ ds.low.length = ds.dates.length
    ∧ ds.close.length = ds.dates.length
    ∧ ds.volume.length = ds.dates.length
    ∧ (∀ p ∈ ds.signals, (p.2 : List ℚ).length = ds.dates.length)
    ∧ (∀ p ∈ ds.indicators, (p.2 : List ℚ).length = ds.dates.length)

instance (ds : Dataset) : Decidable (WellFormed ds) := by
  unfold WellFormed; infer_instance

/-!
## `InvestSmartJSONClient` (`json_client.py`)

File-system access is embedded through a `LoadOutcome`: the data file may be
missing, unreadable/unparsable, or hold a parsed list of per-day records.
-/

/-- One element of the JSON array in `signals_<symbol>.json`; every field but
`date` is read with `item.get(key, 0)`, so each is optional. -/
structure SignalItem where
  date : Option String
  opn : Option ℚ
  high : Option ℚ
  low : Option ℚ
  close : Option ℚ
  volume : Option ℚ
  short_signal_v1 : Option ℚ
  short_signal_v2 : Option ℚ
  long_signal : Option ℚ
  combined_signal_v1 : Option ℚ
  macd_signal : Option ℚ
  momentum_color_signal : Option ℚ
  fcv : Option ℚ
  last_updated : Option String
deriving DecidableEq, Repr, Inhabited

/-- What the file system yields for a symbol's JSON file. -/
inductive LoadOutcome where
  | fileMissing
  | readError
  | fileContent (items : List SignalItem)
deriving DecidableEq, Repr

/-- `_load_symbol_data` (lines 27–41): a missing file and any read/parse
exception both collapse to the empty list. -/
def load_symbol_data : LoadOutcome → List SignalItem
  | .fileMissing => []
  | .readError => []
  | .fileContent items => items

/-- The dict returned by `get_signals_data`; keys absent from the error-path
dict (`data`, `trendlines`, `last_updated`) are `Option`-wrapped. -/
structure SignalsPayload where
  symbol : String
  dates : List String
  data : Option (List ℚ × List ℚ × List ℚ × List ℚ × List ℚ)
  signals : List (String × List ℚ)
  indicators : List (String × List ℚ)
  trendlines : Option (List Trendline)
  last_updated : Option (Option String)
  error : Option String
deriving DecidableEq, Repr

/-- The error dict built at lines 55–62 and 99–107. -/
def errorPayload (symbol msg : String) : SignalsPayload :=
  { symbol := symbol
    dates := []
    data := none
    signals := []
    indicators := []
    trendlines := none
    last_updated := none
    error := some msg }

/-- `get_signals_data` (lines 43–107): empty data gives the error dict;
a record without a `'date'` key raises `KeyError`, caught at line 99 into the
error dict; otherwise the per-day records are split into parallel arrays. -/
def get_signals_data (outcome : LoadOutcome) (symbol : String) (period : String) :
    SignalsPayload :=
  let symbol_data := load_symbol_data outcome
  if symbol_data.isEmpty then
    errorPayload symbol "데이터를 찾을 수 없습니다"
  else if symbol_data.any (fun it => it.date.isNone) then
    errorPayload symbol "데이터 조회 실패: KeyError"
  else
    let dates := symbol_data.map fun it => it.date.getD ""
    { symbol := symbol
      dates := dates
      data := some
        (symbol_data.map fun it => it.opn.getD 0,
         symbol_data.map fun it => it.high.getD 0,
         symbol_data.map fun it => it.low.getD 0,
         symbol_data.map fun it => it.close.getD 0,
         symbol_data.map fun it => it.volume.getD 0)
      signals :=
        [("short_signal_v1", symbol_data.map fun it => it.short_signal_v1.getD 0),
         ("short_signal_v2", symbol_data.map fun it => it.short_signal_v2.getD 0),
         ("long_signal", symbol_data.map fun it => it.long_signal.getD 0),
         ("combined_signal_v1", symbol_data.map fun it => it.combined_signal_v1.getD 0),
         ("macd_signal", symbol_data.map fun it => it.macd_signal.getD 0),
         ("momentum_color_signal", symbol_data.map fun it => it.momentum_color_signal.getD 0)]
      indicators := [("Final_Composite_Value", symbol_data.map fun it => it.fcv.getD 0)]
      trendlines := some []
      last_updated := some ((symbol_data.getLastD default).last_updated.getD (dates.getLastD ""))
      error := none }

/-!
## Theorems
-/

/-- C6: for every dataset `d`, aggregating with granularity daily is the
identity — `resample_data_to_timeframe` returns `d` itself, structurally
equal — and the daily signal remap passes every signal mapping through
unchanged. -/
theorem daily_is_identity (ds : Dataset) (signals : List (String × List ℚ))
    (od rd : List Date) :
    resample_data_to_timeframe ds "daily" = .ok ds
      ∧ map_signals_to_timeframe signals od rd "daily" = signals := by
  exact ⟨rfl, rfl⟩

/-- A concrete tiny well-formed dataset: two trading days of the first week
of 2024. -/
def dsJanA : Dataset :=
  { symbol := "KOSPI"
    dates := [⟨2024, 1, 1⟩, ⟨2024, 1, 2⟩]
    opn := [10, 11]
    high := [12, 14]
    low := [9, 10]
    close := [11, 13]
    volume := [100, 200]
    signals := [("short_signal_v1", [1, 0])]
    indicators := [("Final_Composite_Value", [1/2, 3/5])]
    trendlines := []
    last_updated := none }

/-- C9 counterexample: for the unsupported granularity token `"hourly"` the
engine does not reject the request — it returns a dataset (the input itself),
so no `InvalidGranularity` error exists. -/
theorem unsupported_granularity_returns_dataset :
    resample_data_to_timeframe dsJanA "hourly" = .ok dsJanA := by
  rfl

/-- C9 amended: for every granularity token outside {daily, weekly, monthly}
whose dataset passes the DataFrame construction (equal core array lengths),
`resample_data_to_timeframe` raises nothing and returns the input dataset
unchanged. -/
theorem unknown_granularity_passthrough (ds : Dataset) (tf : String)
    (h1 : tf ≠ "daily") (h2 : tf ≠ "weekly") (h3 : tf ≠ "monthly")
    (hlen : sameLengths ds = true) :
    resample_data_to_timeframe ds tf = .ok ds := by
  unfold resample_data_to_timeframe
  simp [h1, h2, h3, hlen]

/-- Witness for `unknown_granularity_passthrough` at token `"hourly"`. -/
theorem unknown_granularity_passthrough_witness :
    resample_data_to_timeframe dsJanA "hourly" = .ok dsJanA :=
  unknown_granularity_passthrough dsJanA "hourly"
    (by decide) (by decide) (by decide) (by decide)

/-- C10: for a missing, unreadable, or empty JSON data file,
`get_signals_data` raises nothing and returns the error dict whose `symbol`
equals the argument, with empty `dates`, empty `signals` and `indicators`
mappings, and an `error` key present. -/
theorem get_signals_data_failure_dict (symbol period : String) :
    ((get_signals_data .fileMissing symbol period).symbol = symbol
      ∧ (get_signals_data .fileMissing symbol period).dates = []
      ∧ (get_signals_data .fileMissing symbol period).signals = []
      ∧ (get_signals_data .fileMissing symbol period).indicators = []
      ∧ (get_signals_data .fileMissing symbol period).error.isSome = true)
    ∧ ((get_signals_data .readError symbol period).symbol = symbol
      ∧ (get_signals_data .readError symbol period).dates = []
      ∧ (get_signals_data .readError symbol period).signals = []
      ∧ (get_signals_data .readError symbol period).indicators = []
      ∧ (get_signals_data .readError symbol period).error.isSome = true)
    ∧ ((get_signals_data (.fileContent []) symbol period).symbol = symbol
      ∧ (get_signals_data (.fileContent []) symbol period).dates = []
      ∧ (get_signals_data (.fileContent []) symbol period).signals = []
      ∧ (get_signals_data (.fileContent []) symbol period).indicators = []
      ∧ (get_signals_data (.fileContent []) symbol period).error.isSome = true) := by
  exact ⟨⟨rfl, rfl, rfl, rfl, rfl⟩, ⟨rfl, rfl, rfl, rfl, rfl⟩, ⟨rfl, rfl, rfl, rfl, rfl⟩⟩

/-- A dataset whose `short_signal_v1` series is shorter than the date axis. -/
def dsShortSignal : Dataset :=
  { symbol := "KOSPI"
    dates := [⟨2024, 1, 1⟩, ⟨2024, 1, 2⟩]
    opn := [10, 11]
    high := [12, 14]
    low := [9, 10]
    close := [11, 13]
    volume := [100, 200]
    signals := [("short_signal_v1", [1])]
    indicators := []
    trendlines := []
    last_updated := none }

/-- A dataset whose `open` array is shorter than the date axis. -/
def dsShortOpen : Dataset :=
  { symbol := "KOSPI"
    dates := [⟨2024, 1, 1⟩, ⟨2024, 1, 2⟩]
    opn := [10]
    high := [12, 14]
    low := [9, 10]
    close := [11, 13]
    volume := [100, 200]
    signals := []
    indicators := []
    trendlines := []
    last_updated := none }

/-- C8 counterexample: a dataset with a signal series shorter than the date
axis raises no `DataShapeError` — daily aggregation returns the mismatched
dataset unchanged, weekly aggregation also returns a dataset — and the chart
component silently truncates a mismatched price array to the common minimum
length instead of erroring. -/
theorem no_data_shape_error :
    dsShortSignal.signals = [("short_signal_v1", [1])]
      ∧ dsShortSignal.dates.length = 2
      ∧ resample_data_to_timeframe dsShortSignal "daily" = .ok dsShortSignal
      ∧ (∃ out, resample_data_to_timeframe dsShortSignal "weekly" = .ok out)
      ∧ dsShortOpen.dates.length = 2
      ∧ (chartTruncate dsShortOpen).1.length = 1 := by
  refine ⟨rfl, rfl, rfl, ⟨_, rfl⟩, rfl, rfl⟩

/-- C8 amended: aggregation performs no shape validation — with granularity
daily it returns a mismatched dataset unchanged; with weekly/monthly, only a
mismatch among the six core arrays aborts, with pandas' generic
`DataFrame` length error that names no field (signal/indicator mismatches
pass through); and `_create_candlestick_chart` silently truncates the date
and price arrays to their minimum common length. -/
theorem shape_mismatch_behavior (ds : Dataset) (tf : String)
    (htf : tf = "weekly" ∨ tf = "monthly") :
    resample_data_to_timeframe ds "daily" = .ok ds
      ∧ (sameLengths ds = false →
          resample_data_to_timeframe ds tf = .error "All arrays must be of the same length")
      ∧ (chartTruncate ds).1.length = chart_min_length ds
      ∧ (chartTruncate ds).2.1.length = chart_min_length ds
      ∧ (chartTruncate ds).2.2.1.length = chart_min_length ds
      ∧ (chartTruncate ds).2.2.2.1.length = chart_min_length ds
      ∧ (chartTruncate ds).2.2.2.2.length = chart_min_length ds := by
  refine ⟨rfl, ?_, ?_, ?_, ?_, ?_, ?_⟩
  · intro hbad
    rcases htf with h | h <;> subst h <;>
      simp [resample_data_to_timeframe, hbad]
  all_goals
    simp only [chartTruncate, List.length_take]
    simp only [chart_min_length]
    omega

/-- Witness for `shape_mismatch_behavior` on a concrete mismatched dataset. -/
theorem shape_mismatch_behavior_witness :
    resample_data_to_timeframe dsShortOpen "daily" = .ok dsShortOpen
      ∧ (sameLengths dsShortOpen = false →
          resample_data_to_timeframe dsShortOpen "weekly"
            = .error "All arrays must be of the same length")
      ∧ (chartTruncate dsShortOpen).1.length = chart_min_length dsShortOpen
      ∧ (chartTruncate dsShortOpen).2.1.length = chart_min_length dsShortOpen
      ∧ (chartTruncate dsShortOpen).2.2.1.length = chart_min_length dsShortOpen
      ∧ (chartTruncate dsShortOpen).2.2.2.1.length = chart_min_length dsShortOpen
      ∧ (chartTruncate dsShortOpen).2.2.2.2.length = chart_min_length dsShortOpen :=
  shape_mismatch_behavior dsShortOpen "weekly" (Or.inl rfl)

/-!
## Bucket-axis lemmas
-/

/-- `insertB` keeps every lower bound of the list that also bounds the new
element. -/
theorem insertB_forall_lt (b x : Date) (l : List Date)
    (hb : x.toNum < b.toNum) (hl : ∀ c ∈ l, x.toNum < c.toNum) :
    ∀ c ∈ insertB b l, x.toNum < c.toNum := by
  induction l with
  | nil =>
    intro c hc
    simp only [insertB, List.mem_singleton] at hc
    subst hc; exact hb
  | cons a as ih =>
    intro c hc
    simp only [insertB] at hc
    split at hc
    · rw [List.mem_cons, List.mem_cons] at hc
      rcases hc with hc | hc | hc
      · subst hc; exact hb
      · rw [hc]; exact hl a (by simp)
      · exact hl c (by simp [hc])
    · split at hc
      · rw [List.mem_cons] at hc
        rcases hc with hc | hc
        · rw [hc]; exact hl a (by simp)
        · exact hl c (by simp [hc])
      · rw [List.mem_cons] at hc
        rcases hc with hc | hc
        · rw [hc]; exact hl a (by simp)
        · exact ih (fun d hd => hl d (by simp [hd])) c hc

/-- `insertB` preserves strict ascending order. -/
theorem insertB_pairwise (b : Date) (l : List Date)
    (h : List.Pairwise (fun a c => a.toNum < c.toNum) l) :
    List.Pairwise (fun a c => a.toNum < c.toNum) (insertB b l) := by
  induction l with
  | nil => simp [insertB]
  | cons x xs ih =>
    rcases List.pairwise_cons.mp h with ⟨hx, hxs⟩
    show List.Pairwise _ (insertB b (x :: xs))
    unfold insertB
    by_cases hlt : b.toNum < x.toNum
    · simp only [if_pos hlt]
      refine List.pairwise_cons.mpr ⟨?_, h⟩
      intro c hc
      rw [List.mem_cons] at hc
      rcases hc with hc | hc
      · subst hc; omega
      · have := hx c hc; omega
    · simp only [if_neg hlt]
      by_cases heq : b.toNum = x.toNum
      · simp only [if_pos heq]; exact h
      · simp only [if_neg heq]
        refine List.pairwise_cons.mpr ⟨?_, ih hxs⟩
        exact insertB_forall_lt b x xs (by omega) hx

/-- Chronological membership in an `insertB` result. -/
theorem insertB_mem_toNum (b : Date) (l : List Date) (t : Nat) :
    (∃ c ∈ insertB b l, c.toNum = t) ↔ t = b.toNum ∨ ∃ c ∈ l, c.toNum = t := by
  induction l with
  | nil => simp [insertB, eq_comm]
  | cons x xs ih =>
    show (∃ c ∈ insertB b (x :: xs), c.toNum = t) ↔ _
    unfold insertB
    by_cases hlt : b.toNum < x.toNum
    · simp only [if_pos hlt]
      constructor
      · rintro ⟨c, hc, hct⟩
        rw [List.mem_cons, List.mem_cons] at hc
        rcases hc with hc | hc | hc
        · subst hc; exact Or.inl hct.symm
        · exact Or.inr ⟨x, by simp, by rw [← hc]; exact hct⟩
        · exact Or.inr ⟨c, by simp [hc], hct⟩
      · rintro (ht | ⟨c, hc, hct⟩)
        · exact ⟨b, by simp, ht.symm⟩
        · rw [List.mem_cons] at hc
          rcases hc with hc | hc
          · exact ⟨x, by simp, by rw [← hc]; exact hct⟩
          · exact ⟨c, by simp [hc], hct⟩
    · simp only [if_neg hlt]
      by_cases heq : b.toNum = x.toNum
      · simp only [if_pos heq]
        constructor
        · rintro ⟨c, hc, hct⟩
          rw [List.mem_cons] at hc
          rcases hc with hc | hc
          · exact Or.inr ⟨x, by simp, by rw [← hc]; exact hct⟩
          · exact Or.inr ⟨c, by simp [hc], hct⟩
        · rintro (ht | ⟨c, hc, hct⟩)
          · exact ⟨x, by simp, by omega⟩
          · rw [List.mem_cons] at hc
            rcases hc with hc | hc
            · exact ⟨x, by simp, by rw [← hc]; exact hct⟩
            · exact ⟨c, by simp [hc], hct⟩
      · simp only [if_neg heq]
        constructor
        · rintro ⟨c, hc, hct⟩
          rw [List.mem_cons] at hc
          rcases hc with hc | hc
          · exact Or.inr ⟨x, by simp, by rw [← hc]; exact hct⟩
          · rcases (ih.mp ⟨c, hc, hct⟩) with ht | ⟨d, hd, hdt⟩
            · exact Or.inl ht
            · exact Or.inr ⟨d, by simp [hd], hdt⟩
        · rintro (ht | ⟨c, hc, hct⟩)
          · obtain ⟨c, hc, hct⟩ := ih.mpr (Or.inl ht)
            exact ⟨c, by simp [hc], hct⟩
          · rw [List.mem_cons] at hc
            rcases hc with hc | hc
            · exact ⟨x, by simp, by rw [← hc]; exact hct⟩
            · obtain ⟨d, hd, hdt⟩ := ih.mpr (Or.inr ⟨c, hc, hct⟩)
              exact ⟨d, by simp [hd], hdt⟩

/-- The bucket axis is strictly ascending (hence duplicate-free): coarse bars
are emitted in ascending boundary order, one per bucket. -/
theorem bucketAxis_pairwise (rule : Rule) (dates : List Date) :
    List.Pairwise (fun a c => a.toNum < c.toNum) (bucketAxis rule dates) := by
  unfold bucketAxis
  generalize dates.map (ruleBucket rule) = l
  have h : ∀ (acc : List Date), List.Pairwise (fun a c => a.toNum < c.toNum) acc →
      List.Pairwise (fun a c => a.toNum < c.toNum)
        (l.foldl (fun acc b => insertB b acc) acc) := by
    induction l with
    | nil => intro acc hacc; exact hacc
    | cons x xs ih =>
      intro acc hacc
      exact ih (insertB x acc) (insertB_pairwise x acc hacc)
  exact h [] (by simp)

/-- A chronological point is on the bucket axis iff some daily date maps to
it: a bucket appears iff it has at least one contributing record. -/
theorem bucketAxis_mem_toNum (rule : Rule) (dates : List Date) (t : Nat) :
    (∃ c ∈ bucketAxis rule dates, c.toNum = t)
      ↔ ∃ d ∈ dates, (ruleBucket rule d).toNum = t := by
  unfold bucketAxis
  have h : ∀ (l acc : List Date),
      (∃ c ∈ l.foldl (fun acc b => insertB b acc) acc, c.toNum = t)
        ↔ (∃ c ∈ acc, c.toNum = t) ∨ (∃ b ∈ l, b.toNum = t) := by
    intro l
    induction l with
    | nil => intro acc; simp
    | cons x xs ih =>
      intro acc
      show (∃ c ∈ xs.foldl _ (insertB x acc), c.toNum = t) ↔ _
      rw [ih (insertB x acc)]
      rw [insertB_mem_toNum]
      constructor
      · rintro ((ht | h) | h)
        · exact Or.inr ⟨x, by simp, ht.symm⟩
        · exact Or.inl h
        · obtain ⟨b, hb, hbt⟩ := h
          exact Or.inr ⟨b, by simp [hb], hbt⟩
      · rintro (h | ⟨b, hb, hbt⟩)
        · exact Or.inl (Or.inr h)
        · rw [List.mem_cons] at hb
          rcases hb with hb | hb
          · rw [hb] at hbt; exact Or.inl (Or.inl hbt.symm)
          · exact Or.inr ⟨b, hb, hbt⟩
  rw [h (dates.map (ruleBucket rule)) []]
  simp

/-!
## Aggregation lemmas
-/

theorem getLastD_map_nonempty (f : Nat → ℚ) (l : List Nat) (hl : l ≠ []) :
    ∀ (d : ℚ) (e : Nat), (l.map f).getLastD d = f (l.getLastD e) := by
  induction l with
  | nil => cases hl rfl
  | cons x xs ih =>
    intro d e
    cases xs with
    | nil => simp
    | cons y ys =>
      rw [List.map_cons, List.getLastD_cons, List.getLastD_cons]
      exact ih (by simp) (f x) x

theorem le_foldl_max (a : ℚ) (l : List ℚ) : a ≤ l.foldl max a := by
  induction l generalizing a with
  | nil => simp
  | cons x xs ih => exact le_trans (le_max_left a x) (ih (max a x))

theorem foldl_max_mem (a : ℚ) (l : List ℚ) : l.foldl max a = a ∨ l.foldl max a ∈ l := by
  induction l generalizing a with
  | nil => left; rfl
  | cons x xs ih =>
    show List.foldl max (max a x) xs = a ∨ List.foldl max (max a x) xs ∈ x :: xs
    rcases ih (max a x) with h | h
    · rcases max_choice a x with hm | hm
      · left; rw [h, hm]
      · right; rw [h, hm]; simp
    · right; simp [h]

theorem mem_le_foldl_max (a x : ℚ) (l : List ℚ) : x ∈ l → x ≤ l.foldl max a := by
  induction l generalizing a with
  | nil => intro hx; simp at hx
  | cons y ys ih =>
    intro hx
    rw [List.mem_cons] at hx
    show x ≤ List.foldl max (max a y) ys
    rcases hx with h | h
    · rw [h]; exact le_trans (le_max_right a y) (le_foldl_max _ _)
    · exact ih (max a y) h

theorem foldl_min_le (a : ℚ) (l : List ℚ) : l.foldl min a ≤ a := by
  induction l generalizing a with
  | nil => simp
  | cons x xs ih => exact le_trans (ih (min a x)) (min_le_left a x)

theorem foldl_min_mem (a : ℚ) (l : List ℚ) : l.foldl min a = a ∨ l.foldl min a ∈ l := by
  induction l generalizing a with
  | nil => left; rfl
  | cons x xs ih =>
    show List.foldl min (min a x) xs = a ∨ List.foldl min (min a x) xs ∈ x :: xs
    rcases ih (min a x) with h | h
    · rcases min_choice a x with hm | hm
      · left; rw [h, hm]
      · right; rw [h, hm]; simp
    · right; simp [h]

theorem foldl_min_le_mem (a x : ℚ) (l : List ℚ) : x ∈ l → l.foldl min a ≤ x := by
  induction l generalizing a with
  | nil => intro hx; simp at hx
  | cons y ys ih =>
    intro hx
    rw [List.mem_cons] at hx
    show List.foldl min (min a y) ys ≤ x
    rcases hx with h | h
    · rw [h]; exact le_trans (foldl_min_le _ _) (min_le_right a y)
    · exact ih (min a y) h

theorem aggFirst_eq (idxs : List Nat) (col : List ℚ) (h : idxs ≠ []) :
    aggFirst idxs col = col.getD (idxs.headD 0) 0 := by
  cases idxs with
  | nil => cases h rfl
  | cons j js => rfl

theorem aggLast_eq (idxs : List Nat) (col : List ℚ) (h : idxs ≠ []) :
    aggLast idxs col = col.getD (idxs.getLastD 0) 0 := by
  unfold aggLast
  exact getLastD_map_nonempty _ idxs h 0 0

theorem aggMax_spec (idxs : List Nat) (col : List ℚ) (h : idxs ≠ []) :
    (∀ i ∈ idxs, col.getD i 0 ≤ aggMax idxs col)
      ∧ ∃ i ∈ idxs, aggMax idxs col = col.getD i 0 := by
  cases idxs with
  | nil => cases h rfl
  | cons j js =>
    have hshow : aggMax (j :: js) col
        = (js.map fun i => col.getD i 0).foldl max (col.getD j 0) := rfl
    rw [hshow]
    constructor
    · intro i hi
      rw [List.mem_cons] at hi
      rcases hi with hi | hi
      · rw [hi]; exact le_foldl_max _ _
      · exact mem_le_foldl_max _ _ _ (List.mem_map_of_mem _ hi)
    · rcases foldl_max_mem (col.getD j 0) (js.map fun i => col.getD i 0) with h1 | h1
      · exact ⟨j, by simp, h1⟩
      · obtain ⟨i, hi, hfi⟩ := List.mem_map.mp h1
        exact ⟨i, by simp [hi], hfi.symm⟩

theorem aggMin_spec (idxs : List Nat) (col : List ℚ) (h : idxs ≠ []) :
    (∀ i ∈ idxs, aggMin idxs col ≤ col.getD i 0)
      ∧ ∃ i ∈ idxs, aggMin idxs col = col.getD i 0 := by
  cases idxs with
  | nil => cases h rfl
  | cons j js =>
    have hshow : aggMin (j :: js) col
        = (js.map fun i => col.getD i 0).foldl min (col.getD j 0) := rfl
    rw [hshow]
    constructor
    · intro i hi
      rw [List.mem_cons] at hi
      rcases hi with hi | hi
      · rw [hi]; exact foldl_min_le _ _
      · exact foldl_min_le_mem _ _ _ (List.mem_map_of_mem _ hi)
    · rcases foldl_min_mem (col.getD j 0) (js.map fun i => col.getD i 0) with h1 | h1
      · exact ⟨j, by simp, h1⟩
      · obtain ⟨i, hi, hfi⟩ := List.mem_map.mp h1
        exact ⟨i, by simp [hi], hfi.symm⟩

theorem getD_map_lt (f : Date → ℚ) (l : List Date) (k : Nat) (hk : k < l.length) :
    (l.map f).getD k 0 = f (l.getD k dummyDate) := by
  rw [List.getD_eq_getElem _ _ (by simpa using hk), List.getElem_map,
    List.getD_eq_getElem _ _ hk]

/-- Every axis bucket has at least one contributing daily row. -/
theorem bucketIdxs_nonempty (rule : Rule) (dates : List Date) (b : Date)
    (hb : b ∈ bucketAxis rule dates) : bucketIdxs rule dates b ≠ [] := by
  have hmem := (bucketAxis_mem_toNum rule dates b.toNum).mp ⟨b, hb, rfl⟩
  obtain ⟨d, hd, hdt⟩ := hmem
  obtain ⟨i, hi, hdi⟩ := List.getElem_of_mem hd
  intro hemp
  have hmemi : i ∈ bucketIdxs rule dates b := by
    unfold bucketIdxs
    rw [List.mem_filter]
    refine ⟨by simpa using hi, ?_⟩
    have hget : dates[i]?.getD dummyDate = d := by
      rw [List.getElem?_eq_getElem hi]
      simpa using hdi
    simp [hget, hdt]
  rw [hemp] at hmemi
  cases hmemi

/-- C1: for a well-formed daily dataset, weekly/monthly aggregation emits,
for exactly the buckets having at least one contributing daily record, one
OHLCV bar — open = first record's open, high = max of highs, low = min of
lows, close = last record's close, volume = sum of volumes — in strictly
ascending boundary order, and an empty bucket yields no bar at all. -/
theorem weekly_monthly_aggregation (ds : Dataset) (tf : String) (rule : Rule)
    (hWF : WellFormed ds)
    (htf : (tf = "weekly" ∧ rule = .wfri) ∨ (tf = "monthly" ∧ rule = .monthEnd)) :
    ∃ out, resample_data_to_timeframe ds tf = .ok out
      ∧ out = resampleCore ds rule tf
      ∧ List.Pairwise (fun a c => a.toNum < c.toNum) out.dates
      ∧ (∀ t : Nat, (∃ d ∈ ds.dates, (ruleBucket rule d).toNum = t)
            ↔ ∃ b ∈ out.dates, b.toNum = t)
      ∧ (∀ k, k < out.dates.length →
          bucketIdxs rule ds.dates (out.dates.getD k dummyDate) ≠ []
            ∧ out.opn.getD k 0
                = ds.opn.getD ((bucketIdxs rule ds.dates (out.dates.getD k dummyDate)).headD 0) 0
            ∧ out.close.getD k 0
                = ds.close.getD
                    ((bucketIdxs rule ds.dates (out.dates.getD k dummyDate)).getLastD 0) 0
            ∧ (∀ i ∈ bucketIdxs rule ds.dates (out.dates.getD k dummyDate),
                ds.high.getD i 0 ≤ out.high.getD k 0)
            ∧ (∃ i ∈ bucketIdxs rule ds.dates (out.dates.getD k dummyDate),
                out.high.getD k 0 = ds.high.getD i 0)
            ∧ (∀ i ∈ bucketIdxs rule ds.dates (out.dates.getD k dummyDate),
                out.low.getD k 0 ≤ ds.low.getD i 0)
            ∧ (∃ i ∈ bucketIdxs rule ds.dates (out.dates.getD k dummyDate),
                out.low.getD k 0 = ds.low.getD i 0)
            ∧ out.volume.getD k 0
                = ((bucketIdxs rule ds.dates (out.dates.getD k dummyDate)).map
                    fun i => ds.volume.getD i 0).sum) := by
  obtain ⟨hsort, hvalid, ho, hh, hl, hc, hv, hs, hind⟩ := hWF
  have hlen : sameLengths ds = true := by
    simp [sameLengths, ho, hh, hl, hc, hv]
  refine ⟨resampleCore ds rule tf, ?_, rfl, ?_, ?_, ?_⟩
  · rcases htf with ⟨h1, h2⟩ | ⟨h1, h2⟩ <;> subst h1 <;> subst h2 <;>
      simp [resample_data_to_timeframe, hlen]
  · exact bucketAxis_pairwise rule ds.dates
  · exact fun t => (bucketAxis_mem_toNum rule ds.dates t).symm
  · intro k hk
    have hk' : k < (bucketAxis rule ds.dates).length := hk
    have hbmem : (bucketAxis rule ds.dates).getD k dummyDate ∈ bucketAxis rule ds.dates := by
      rw [List.getD_eq_getElem _ _ hk']
      exact List.getElem_mem hk'
    have hne := bucketIdxs_nonempty rule ds.dates _ hbmem
    have hOpn : (resampleCore ds rule tf).opn.getD k 0
        = aggFirst (bucketIdxs rule ds.dates
            ((bucketAxis rule ds.dates).getD k dummyDate)) ds.opn :=
      getD_map_lt _ _ k hk'
    have hClose : (resampleCore ds rule tf).close.getD k 0
        = aggLast (bucketIdxs rule ds.dates
            ((bucketAxis rule ds.dates).getD k dummyDate)) ds.close :=
      getD_map_lt _ _ k hk'
    have hHigh : (resampleCore ds rule tf).high.getD k 0
        = aggMax (bucketIdxs rule ds.dates
            ((bucketAxis rule ds.dates).getD k dummyDate)) ds.high :=
      getD_map_lt _ _ k hk'
    have hLow : (resampleCore ds rule tf).low.getD k 0
        = aggMin (bucketIdxs rule ds.dates
            ((bucketAxis rule ds.dates).getD k dummyDate)) ds.low :=
      getD_map_lt _ _ k hk'
    have hVol : (resampleCore ds rule tf).volume.getD k 0
        = aggSum (bucketIdxs rule ds.dates
            ((bucketAxis rule ds.dates).getD k dummyDate)) ds.volume :=
      getD_map_lt _ _ k hk'
    refine ⟨hne, ?_, ?_, ?_, ?_, ?_, ?_, ?_⟩
    · exact hOpn.trans (aggFirst_eq _ _ hne)
    · exact hClose.trans (aggLast_eq _ _ hne)
    · intro i hi
      rw [hHigh]
      exact (aggMax_spec _ _ hne).1 i hi
    · rw [hHigh]
      exact (aggMax_spec _ _ hne).2
    · intro i hi
      rw [hLow]
      exact (aggMin_spec _ _ hne).1 i hi
    · rw [hLow]
      exact (aggMin_spec _ _ hne).2
    · exact hVol

/-!
## Signal remap lemmas
-/

/-- Spec-side reading of the remap rule: the value of the last daily entry in
index order — chronological order once the date axis is sorted — that is
nonzero and resolves to coarse slot `k`; the default `0` if there is none. -/
def lastNonzeroHit (timeframe : String) (axis origDates : List Date)
    (vals : List ℚ) (k : Nat) : ℚ :=
  match ((List.range origDates.length).filter fun i =>
      dailyIdx timeframe axis (origDates.getD i dummyDate) = some k
        ∧ i < vals.length ∧ vals.getD i 0 ≠ 0).getLast? with
  | some i => vals.getD i 0
  | none => 0

/-- Invariant of the assignment loop of `map_signals_to_timeframe`: slot `k`
holds the value of the last processed nonzero entry resolving to `k`, or its
initial value. -/
theorem mapSignal_loop (timeframe : String) (axis origDates : List Date)
    (vals : List ℚ) :
    ∀ (n : Nat) (acc : List ℚ), acc.length = axis.length →
      ((List.range n).foldl (fun acc i =>
          match dailyIdx timeframe axis (origDates.getD i dummyDate) with
          | some k => if i < vals.length ∧ vals.getD i 0 ≠ 0
                      then acc.set k (vals.getD i 0) else acc
          | none => acc) acc).length = axis.length
      ∧ ∀ k, k < axis.length →
          ((List.range n).foldl (fun acc i =>
              match dailyIdx timeframe axis (origDates.getD i dummyDate) with
              | some k => if i < vals.length ∧ vals.getD i 0 ≠ 0
                          then acc.set k (vals.getD i 0) else acc
              | none => acc) acc).getD k 0
            = match ((List.range n).filter fun i =>
                  dailyIdx timeframe axis (origDates.getD i dummyDate) = some k
                    ∧ i < vals.length ∧ vals.getD i 0 ≠ 0).getLast? with
              | some i => vals.getD i 0
              | none => acc.getD k 0 := by
  intro n
  induction n with
  | zero =>
    intro acc hacc
    exact ⟨hacc, fun k _ => by simp⟩
  | succ m ih =>
    intro acc hacc
    obtain ⟨ihlen, ihget⟩ := ih acc hacc
    rw [List.range_succ]
    constructor
    · rw [List.foldl_append]
      simp only [List.foldl_cons, List.foldl_nil]
      rcases hidx : dailyIdx timeframe axis (origDates.getD m dummyDate) with _ | j
      · exact ihlen
      · dsimp only
        by_cases hg : m < vals.length ∧ vals.getD m 0 ≠ 0
        · rw [if_pos hg, List.length_set]
          exact ihlen
        · rw [if_neg hg]
          exact ihlen
    · intro k hk
      rw [List.foldl_append, List.filter_append]
      simp only [List.foldl_cons, List.foldl_nil]
      rcases hidx : dailyIdx timeframe axis (origDates.getD m dummyDate) with _ | j
      · have hcond : ¬(dailyIdx timeframe axis (origDates.getD m dummyDate) = some k
            ∧ m < vals.length ∧ vals.getD m 0 ≠ 0) := by
          intro hcon
          exact Option.noConfusion (hidx.symm.trans hcon.1)
        have hp : (List.filter (fun i =>
            decide (dailyIdx timeframe axis (origDates.getD i dummyDate) = some k
              ∧ i < vals.length ∧ vals.getD i 0 ≠ 0)) [m]) = [] := by
          rw [List.filter_cons, decide_eq_false hcond]
          simp
        rw [hp, List.append_nil]
        exact ihget k hk
      · by_cases hg : m < vals.length ∧ vals.getD m 0 ≠ 0
        · by_cases hjk : j = k
          · subst hjk
            have hcond : dailyIdx timeframe axis (origDates.getD m dummyDate) = some j
                ∧ m < vals.length ∧ vals.getD m 0 ≠ 0 := ⟨hidx, hg⟩
            have hp : (List.filter (fun i =>
                decide (dailyIdx timeframe axis (origDates.getD i dummyDate) = some j
                  ∧ i < vals.length ∧ vals.getD i 0 ≠ 0)) [m]) = [m] := by
              rw [List.filter_cons, decide_eq_true hcond]
              simp
            rw [hp, List.getLast?_concat]
            dsimp only
            rw [if_pos hg]
            have hlen2 : j < ((List.range m).foldl (fun acc i =>
                match dailyIdx timeframe axis (origDates.getD i dummyDate) with
                | some k => if i < vals.length ∧ vals.getD i 0 ≠ 0
                            then acc.set k (vals.getD i 0) else acc
                | none => acc) acc).length := by rw [ihlen]; exact hk
            rw [List.getD_eq_getElem _ _ (by simpa using hlen2)]
            rw [List.getElem_set_self (by simpa using hlen2)]
          · have hcond : ¬(dailyIdx timeframe axis (origDates.getD m dummyDate) = some k
                ∧ m < vals.length ∧ vals.getD m 0 ≠ 0) := by
              intro hcon
              have hsome := hidx.symm.trans hcon.1
              exact hjk (Option.some.inj hsome)
            have hp : (List.filter (fun i =>
                decide (dailyIdx timeframe axis (origDates.getD i dummyDate) = some k
                  ∧ i < vals.length ∧ vals.getD i 0 ≠ 0)) [m]) = [] := by
              rw [List.filter_cons, decide_eq_false hcond]
              simp
            rw [hp, List.append_nil]
            dsimp only
            rw [if_pos hg]
            have hlen2 : k < ((List.range m).foldl (fun acc i =>
                match dailyIdx timeframe axis (origDates.getD i dummyDate) with
                | some k => if i < vals.length ∧ vals.getD i 0 ≠ 0
                            then acc.set k (vals.getD i 0) else acc
                | none => acc) acc).length := by rw [ihlen]; exact hk
            rw [List.getD_eq_getElem _ _ (by simpa using hlen2),
              List.getElem_set_ne (by omega)]
            rw [← List.getD_eq_getElem _ 0 hlen2]
            exact ihget k hk
        · have hcond : ¬(dailyIdx timeframe axis (origDates.getD m dummyDate) = some k
              ∧ m < vals.length ∧ vals.getD m 0 ≠ 0) := by
            intro hcon
            exact hg hcon.2
          have hp : (List.filter (fun i =>
              decide (dailyIdx timeframe axis (origDates.getD i dummyDate) = some k
                ∧ i < vals.length ∧ vals.getD i 0 ≠ 0)) [m]) = [] := by
            rw [List.filter_cons, decide_eq_false hcond]
            simp
          rw [hp, List.append_nil]
          dsimp only
          rw [if_neg hg]
          exact ihget k hk

/-- C2: remapping a daily signal series onto the weekly/monthly axis leaves
every coarse slot holding the value of the last (in chronological processing
order) nonzero daily entry resolving to that slot — each nonzero write
overwrites earlier ones, zero entries are skipped — and a slot receiving no
nonzero entry stays at the default 0; the output has one slot per bucket. -/
theorem signal_overwrite_by_recency (timeframe : String) (axis origDates : List Date)
    (vals : List ℚ) (k : Nat)
    (hsorted : DatesSorted origDates) (hk : k < axis.length) :
    (mapSignal timeframe axis origDates vals).length = axis.length
      ∧ (mapSignal timeframe axis origDates vals).getD k 0
          = lastNonzeroHit timeframe axis origDates vals k := by
  have h := mapSignal_loop timeframe axis origDates vals origDates.length
    (List.replicate axis.length 0) (by simp)
  refine ⟨h.1, ?_⟩
  have h2 := h.2 k hk
  have hrepl : (List.replicate axis.length (0 : ℚ)).getD k 0 = 0 := by
    rw [List.getD_eq_getElem _ _ (by simpa using hk)]
    simp
  unfold mapSignal
  rw [h2]
  unfold lastNonzeroHit
  rcases hcase : ((List.range origDates.length).filter fun i =>
      dailyIdx timeframe axis (origDates.getD i dummyDate) = some k
        ∧ i < vals.length ∧ vals.getD i 0 ≠ 0).getLast? with _ | i
  · exact hrepl
  · rfl

/-- Witness for `signal_overwrite_by_recency`: a signal with value 1 on
2024-01-02 and -1 on 2024-01-04, both in the week bucket 2024-01-05, remaps
to coarse value -1 (the later write wins). -/
theorem signal_overwrite_by_recency_witness :
    DatesSorted [(⟨2024, 1, 2⟩ : Date), ⟨2024, 1, 4⟩]
      ∧ 0 < ([(⟨2024, 1, 5⟩ : Date)] : List Date).length
      ∧ (mapSignal "weekly" [⟨2024, 1, 5⟩] [⟨2024, 1, 2⟩, ⟨2024, 1, 4⟩] [1, -1]).getD 0 0
          = -1 := by
  refine ⟨by decide, by decide, ?_⟩
  have h := (signal_overwrite_by_recency "weekly" [⟨2024, 1, 5⟩]
    [⟨2024, 1, 2⟩, ⟨2024, 1, 4⟩] [1, -1] 0 (by decide) (by decide)).2
  rw [h]
  decide

/-!
## Composite resampling lemmas
-/

theorem filterMap_guard (p : Nat → Prop) [DecidablePred p] (f : Nat → ℚ) (l : List Nat) :
    (l.filterMap fun j => if p j then some (f j) else none)
      = (l.filter fun j => p j).map f := by
  induction l with
  | nil => rfl
  | cons x xs ih =>
    by_cases hx : p x <;>
      simp [List.filterMap_cons, List.filter_cons, hx, ih]

/-- Spec-side reading of the composite rule (spec §4.4): the composite value
of the daily record at the greatest index whose date lies inside the bucket's
interval — `[boundary − 6 days, boundary]` weekly, `[first day of boundary's
month, boundary]` monthly — or the default 0 when no record does. -/
def lastInWindow (timeframe : String) (origDates : List Date) (vals : List ℚ)
    (b : Date) : ℚ :=
  match ((List.range origDates.length).filter fun j =>
      (fcvWindow timeframe b).1.toNum ≤ (origDates.getD j dummyDate).toNum
        ∧ (origDates.getD j dummyDate).toNum ≤ b.toNum).getLast? with
  | some j => vals.getD j 0
  | none => 0

/-- C3: for every bucket of the coarse axis, the resampled composite slot is
the composite value of the chronologically last daily record inside the
bucket's interval, and 0 when no daily record lies in it — never a value
interpolated or carried from an adjacent bucket. -/
theorem composite_last_in_period (timeframe : String) (origDates : List Date)
    (vals : List ℚ) (axis : List Date) (k : Nat)
    (htf : timeframe = "weekly" ∨ timeframe = "monthly")
    (hlen : vals.length = origDates.length)
    (hsorted : DatesSorted origDates)
    (hk : k < axis.length) :
    (resampleFCV timeframe origDates vals axis).length = axis.length
      ∧ (resampleFCV timeframe origDates vals axis).getD k 0
          = lastInWindow timeframe origDates vals (axis.getD k dummyDate) := by
  constructor
  · simp [resampleFCV]
  · have hmap : (resampleFCV timeframe origDates vals axis).getD k 0
        = (let b := axis.getD k dummyDate
           let w := fcvWindow timeframe b
           let period := (List.range origDates.length).filterMap fun j =>
             if (w.1.toNum ≤ (origDates.getD j dummyDate).toNum
                   ∧ (origDates.getD j dummyDate).toNum ≤ w.2.toNum
                   ∧ j < vals.length)
             then some (vals.getD j 0) else none
           period.getLastD 0) :=
      getD_map_lt _ _ k hk
    rw [hmap]
    show ((List.range origDates.length).filterMap fun j =>
        if ((fcvWindow timeframe (axis.getD k dummyDate)).1.toNum
              ≤ (origDates.getD j dummyDate).toNum
            ∧ (origDates.getD j dummyDate).toNum
              ≤ (fcvWindow timeframe (axis.getD k dummyDate)).2.toNum
            ∧ j < vals.length)
        then some (vals.getD j 0) else none).getLastD 0
      = lastInWindow timeframe origDates vals (axis.getD k dummyDate)
    have hw2 : (fcvWindow timeframe (axis.getD k dummyDate)).2 = axis.getD k dummyDate := by
      rcases htf with h | h <;> subst h <;> simp [fcvWindow]
    rw [filterMap_guard]
    have hfeq : ((List.range origDates.length).filter fun j =>
          decide ((fcvWindow timeframe (axis.getD k dummyDate)).1.toNum
              ≤ (origDates.getD j dummyDate).toNum
            ∧ (origDates.getD j dummyDate).toNum
              ≤ (fcvWindow timeframe (axis.getD k dummyDate)).2.toNum
            ∧ j < vals.length))
        = ((List.range origDates.length).filter fun j =>
          decide ((fcvWindow timeframe (axis.getD k dummyDate)).1.toNum
              ≤ (origDates.getD j dummyDate).toNum
            ∧ (origDates.getD j dummyDate).toNum
              ≤ (axis.getD k dummyDate).toNum)) := by
      apply List.filter_congr
      intro j hj
      rw [List.mem_range] at hj
      have hjv : j < vals.length := by omega
      rw [hw2]
      simp [hjv]
    rw [hfeq]
    unfold lastInWindow
    rw [List.getLastD_eq_getLast?, List.getLast?_map]
    rcases hcase : ((List.range origDates.length).filter fun j =>
        decide ((fcvWindow timeframe (axis.getD k dummyDate)).1.toNum
            ≤ (origDates.getD j dummyDate).toNum
          ∧ (origDates.getD j dummyDate).toNum
            ≤ (axis.getD k dummyDate).toNum)).getLast? with _ | j <;> rfl

/-- Witness for `composite_last_in_period`: composite values 0.2, 0.6, 0.9 on
2024-01-01..03 in the single week bucket 2024-01-05 resample to 0.9, not an
average. -/
theorem composite_last_in_period_witness :
    ("weekly" = "weekly" ∨ "weekly" = "monthly")
      ∧ ([(1 : ℚ)/5, 3/5, 9/10] : List ℚ).length
          = [(⟨2024, 1, 1⟩ : Date), ⟨2024, 1, 2⟩, ⟨2024, 1, 3⟩].length
      ∧ DatesSorted [⟨2024, 1, 1⟩, ⟨2024, 1, 2⟩, ⟨2024, 1, 3⟩]
      ∧ (resampleFCV "weekly" [⟨2024, 1, 1⟩, ⟨2024, 1, 2⟩, ⟨2024, 1, 3⟩]
          [1/5, 3/5, 9/10] [⟨2024, 1, 5⟩]).getD 0 0 = 9/10 := by
  refine ⟨Or.inl rfl, by decide, by decide, ?_⟩
  have h := (composite_last_in_period "weekly"
    [⟨2024, 1, 1⟩, ⟨2024, 1, 2⟩, ⟨2024, 1, 3⟩] [1/5, 3/5, 9/10] [⟨2024, 1, 5⟩] 0
    (Or.inl rfl) (by decide) (by decide) (by decide)).2
  rw [h]
  rfl

/-!
## Boundary-miss fallback lemmas
-/

/-- On an ascending axis, `searchsortedLeft` counts exactly the leading
entries strictly before `b`. -/
theorem sorted_searchsorted (axis : List Date) (b : Date) (hsorted : DatesSorted axis) :
    ∀ j, j < axis.length →
      ((axis.getD j dummyDate).toNum < b.toNum ↔ j < searchsortedLeft axis b) := by
  induction axis with
  | nil => intro j hj; simp at hj
  | cons x xs ih =>
    rcases List.pairwise_cons.mp hsorted with ⟨hx, hxs⟩
    intro j hj
    unfold searchsortedLeft
    rw [List.filter_cons]
    by_cases hlt : x.toNum < b.toNum
    · rw [if_pos (by simpa using hlt)]
      cases j with
      | zero => simpa using hlt
      | succ j' =>
        rw [List.getD_cons_succ]
        have hj' : j' < xs.length := by simpa using hj
        have := ih hxs j' hj'
        unfold searchsortedLeft at this
        simpa [Nat.succ_lt_succ_iff] using this
    · rw [if_neg (by simpa using hlt)]
      have hnil : xs.filter (fun c => decide (c.toNum < b.toNum)) = [] := by
        rw [List.filter_eq_nil_iff]
        intro c hc
        have := hx c hc
        simp only [decide_eq_true_eq]
        omega
      rw [hnil]
      cases j with
      | zero => simpa using hlt
      | succ j' =>
        rw [List.getD_cons_succ]
        have hj' : j' < xs.length := by simpa using hj
        have hmem : xs.getD j' dummyDate ∈ xs := by
          rw [List.getD_eq_getElem _ _ hj']
          exact List.getElem_mem hj'
        have := hx _ hmem
        constructor
        · intro hcon; omega
        · intro hcon; simp at hcon

/-- C4: when the computed bucket boundary of a nonzero daily entry is not an
exact member of the coarse axis, the entry resolves to the nearest bucket
boundary at or before the computed boundary — never to a later bucket — and
when no boundary lies at or before it, the entry is dropped. -/
theorem boundary_miss_fallback (timeframe : String) (axis : List Date) (d b : Date)
    (hsorted : DatesSorted axis)
    (hcb : computedBoundary timeframe d = some b)
    (hmiss : ∀ x ∈ axis, x.toNum ≠ b.toNum) :
    ((∃ x ∈ axis, x.toNum < b.toNum) →
      ∃ k, dailyIdx timeframe axis d = some k
        ∧ k < axis.length
        ∧ (axis.getD k dummyDate).toNum < b.toNum
        ∧ (∀ j, j < axis.length → (axis.getD j dummyDate).toNum ≤ b.toNum →
            (axis.getD j dummyDate).toNum ≤ (axis.getD k dummyDate).toNum))
    ∧ ((∀ x ∈ axis, ¬ x.toNum ≤ b.toNum) → dailyIdx timeframe axis d = none) := by
  have hfind : axis.findIdx? (fun x => decide (x.toNum = b.toNum)) = none := by
    rw [List.findIdx?_eq_none_iff]
    intro x hx
    simpa using hmiss x hx
  have hmono : ∀ i j, i < axis.length → j < axis.length → i ≤ j →
      (axis.getD i dummyDate).toNum ≤ (axis.getD j dummyDate).toNum := by
    intro i j hi hj hij
    rcases Nat.eq_or_lt_of_le hij with heq | hlt
    · subst heq; exact le_refl _
    · have := (List.pairwise_iff_getElem.mp hsorted) i j hi hj hlt
      rw [List.getD_eq_getElem _ _ hi, List.getD_eq_getElem _ _ hj]
      exact le_of_lt this
  constructor
  · rintro ⟨x, hx, hxb⟩
    have hpos : 0 < searchsortedLeft axis b := by
      unfold searchsortedLeft
      have hmemf : x ∈ axis.filter (fun c => decide (c.toNum < b.toNum)) := by
        rw [List.mem_filter]
        exact ⟨hx, by simpa using hxb⟩
      exact List.length_pos.mpr (List.ne_nil_of_mem hmemf)
    have hle : searchsortedLeft axis b ≤ axis.length := by
      unfold searchsortedLeft
      exact List.length_filter_le _ _
    have hklen : searchsortedLeft axis b - 1 < axis.length := by omega
    refine ⟨searchsortedLeft axis b - 1, ?_, hklen, ?_, ?_⟩
    · simp only [dailyIdx, hcb, hfind]
      rw [if_pos hpos]
    · exact (sorted_searchsorted axis b hsorted _ hklen).mpr (by omega)
    · intro j hj hjb
      have hjmem : axis.getD j dummyDate ∈ axis := by
        rw [List.getD_eq_getElem _ _ hj]
        exact List.getElem_mem hj
      have hjne := hmiss _ hjmem
      have hjlt : (axis.getD j dummyDate).toNum < b.toNum := by omega
      have hjc : j < searchsortedLeft axis b :=
        (sorted_searchsorted axis b hsorted j hj).mp hjlt
      exact hmono j _ hj hklen (by omega)
  · intro hall
    have hnil : axis.filter (fun c => decide (c.toNum < b.toNum)) = [] := by
      rw [List.filter_eq_nil_iff]
      intro c hc
      have := hall c hc
      simp only [decide_eq_true_eq]
      omega
    have hzero : searchsortedLeft axis b = 0 := by
      unfold searchsortedLeft
      rw [hnil]
      rfl
    simp only [dailyIdx, hcb, hfind]
    rw [if_neg (by omega)]

/-- Witness for `boundary_miss_fallback`: the computed weekly boundary
2024-01-05 of 2024-01-02 is absent from the axis [2024-01-04, 2024-01-12],
and the entry falls back to index 0 (2024-01-04), the nearest boundary at or
before it. -/
theorem boundary_miss_fallback_witness :
    DatesSorted [(⟨2024, 1, 4⟩ : Date), ⟨2024, 1, 12⟩]
      ∧ computedBoundary "weekly" ⟨2024, 1, 2⟩ = some (weekBucket ⟨2024, 1, 2⟩)
      ∧ (∀ x ∈ [(⟨2024, 1, 4⟩ : Date), ⟨2024, 1, 12⟩],
          x.toNum ≠ (weekBucket ⟨2024, 1, 2⟩).toNum)
      ∧ ∃ k, dailyIdx "weekly" [(⟨2024, 1, 4⟩ : Date), ⟨2024, 1, 12⟩] ⟨2024, 1, 2⟩ = some k
          ∧ k < ([(⟨2024, 1, 4⟩ : Date), ⟨2024, 1, 12⟩] : List Date).length
          ∧ (([(⟨2024, 1, 4⟩ : Date), ⟨2024, 1, 12⟩] : List Date).getD k dummyDate).toNum
              < (weekBucket ⟨2024, 1, 2⟩).toNum
          ∧ (∀ j, j < ([(⟨2024, 1, 4⟩ : Date), ⟨2024, 1, 12⟩] : List Date).length →
              (([(⟨2024, 1, 4⟩ : Date), ⟨2024, 1, 12⟩] : List Date).getD j dummyDate).toNum
                  ≤ (weekBucket ⟨2024, 1, 2⟩).toNum →
              (([(⟨2024, 1, 4⟩ : Date), ⟨2024, 1, 12⟩] : List Date).getD j dummyDate).toNum
                  ≤ (([(⟨2024, 1, 4⟩ : Date), ⟨2024, 1, 12⟩] : List Date).getD k dummyDate).toNum) := by
  refine ⟨by decide, by decide, by decide, ?_⟩
  exact (boundary_miss_fallback "weekly" [⟨2024, 1, 4⟩, ⟨2024, 1, 12⟩] ⟨2024, 1, 2⟩
    (weekBucket ⟨2024, 1, 2⟩) (by decide) (by decide) (by decide)).1
    ⟨⟨2024, 1, 4⟩, by decide, by decide⟩

/-!
## Weekly bucket arithmetic
-/

/-- Spec-side definition from the claim's words: the Friday of the Mon–Sun
ISO week containing `dt` (back to Monday, then four days forward). -/
def isoWeekFriday (dt : Date) : Date :=
  addDays (subDays dt dt.weekday) 4

/-- C5 counterexample: Saturday 2024-01-06 lies in the same Mon–Sun ISO week
as 2024-01-01..05, whose Friday is 2024-01-05, but its weekly bucket boundary
is 2024-01-12 — the formula rolls Sat/Sun forward to the next Friday, so the
boundary is not the Friday of the ISO week containing the date, and days of
one Mon–Sun week do not all share a boundary. -/
theorem iso_week_gloss_counterexample :
    Date.weekday ⟨2024, 1, 6⟩ = 5
      ∧ isoWeekFriday ⟨2024, 1, 6⟩ = ⟨2024, 1, 5⟩
      ∧ weekBucket ⟨2024, 1, 1⟩ = ⟨2024, 1, 5⟩
      ∧ weekBucket ⟨2024, 1, 6⟩ = ⟨2024, 1, 12⟩
      ∧ weekBucket ⟨2024, 1, 6⟩ ≠ isoWeekFriday ⟨2024, 1, 6⟩
      ∧ weekBucket ⟨2024, 1, 6⟩ ≠ weekBucket ⟨2024, 1, 1⟩ := by
  decide

/-- C5 amended: the weekly boundary is `date + ((4 − weekday date) mod 7)`
days — always a Friday, zero to six days ahead — and two dates share a
boundary exactly when they lie in the same Sat–Fri week; hence Mon–Fri of an
ISO week (2024-01-01..05 in particular) share the Friday boundary, while its
Sat/Sun roll forward to the next Friday. -/
theorem week_bucket_sat_fri (d e : Date) (hd : d.ValidDate) (he : e.ValidDate) :
    (weekBucket d).weekday = 4
      ∧ (weekBucket d).toNum = d.toNum + (11 - d.weekday) % 7
      ∧ d.toNum ≤ (weekBucket d).toNum
      ∧ (weekBucket d).toNum < d.toNum + 7
      ∧ ((weekBucket d).toNum = (weekBucket e).toNum
          ↔ (d.toNum + 1) / 7 = (e.toNum + 1) / 7) := by
  have key : ∀ m : Nat, m + (11 - (m + 6) % 7) % 7 = 7 * ((m + 1) / 7) + 5 := by
    intro m; omega
  have hwd : (weekBucket d).toNum = d.toNum + (11 - d.weekday) % 7 :=
    (addDays_toNum_valid _ d hd).1
  have hwe : (weekBucket e).toNum = e.toNum + (11 - e.weekday) % 7 :=
    (addDays_toNum_valid _ e he).1
  have hd7 : (weekBucket d).toNum = 7 * ((d.toNum + 1) / 7) + 5 := by
    rw [hwd]; unfold Date.weekday; exact key d.toNum
  have he7 : (weekBucket e).toNum = 7 * ((e.toNum + 1) / 7) + 5 := by
    rw [hwe]; unfold Date.weekday; exact key e.toNum
  refine ⟨?_, hwd, ?_, ?_, ?_⟩
  · unfold Date.weekday
    omega
  · omega
  · unfold Date.weekday at hwd
    omega
  · constructor
    · intro h; omega
    · intro h; omega

/-- Witness for `week_bucket_sat_fri`: 2024-01-01 (Mon) and 2024-01-05 (Fri)
lie in the same Sat–Fri week and both map to boundary 2024-01-05, as do the
days between them. -/
theorem week_bucket_sat_fri_witness :
    (⟨2024, 1, 1⟩ : Date).ValidDate
      ∧ (⟨2024, 1, 5⟩ : Date).ValidDate
      ∧ ((weekBucket ⟨2024, 1, 1⟩).toNum = (weekBucket ⟨2024, 1, 5⟩).toNum
          ↔ ((⟨2024, 1, 1⟩ : Date).toNum + 1) / 7 = ((⟨2024, 1, 5⟩ : Date).toNum + 1) / 7)
      ∧ weekBucket ⟨2024, 1, 1⟩ = ⟨2024, 1, 5⟩
      ∧ weekBucket ⟨2024, 1, 2⟩ = ⟨2024, 1, 5⟩
      ∧ weekBucket ⟨2024, 1, 3⟩ = ⟨2024, 1, 5⟩
      ∧ weekBucket ⟨2024, 1, 4⟩ = ⟨2024, 1, 5⟩
      ∧ weekBucket ⟨2024, 1, 5⟩ = ⟨2024, 1, 5⟩ := by
  refine ⟨by decide, by decide, ?_, by decide, by decide, by decide, by decide, by decide⟩
  exact (week_bucket_sat_fri ⟨2024, 1, 1⟩ ⟨2024, 1, 5⟩ (by decide) (by decide)).2.2.2.2

/-- A well-formed two-day dataset carrying a non-composite indicator. -/
def dsWithRSI : Dataset :=
  { symbol := "KOSPI"
    dates := [⟨2024, 1, 1⟩, ⟨2024, 1, 2⟩]
    opn := [10, 11]
    high := [12, 14]
    low := [9, 10]
    close := [11, 13]
    volume := [100, 200]
    signals := [("short_signal_v1", [1, 0])]
    indicators := [("Final_Composite_Value", [1, 0]), ("RSI", [30, 40])]
    trendlines := []
    last_updated := none }

/-- C7 counterexample: a well-formed dataset with a non-composite indicator
(`RSI`, daily length 2) aggregates to a weekly dataset with one bucket, yet
the `RSI` series is passed through at its daily length 2 ≠ 1 — not every
indicator series matches the bucket axis length. -/
theorem indicator_length_counterexample :
    WellFormed dsWithRSI
      ∧ ∃ out, resample_data_to_timeframe dsWithRSI "weekly" = .ok out
          ∧ out.dates.length = 1
          ∧ ("RSI", ([30, 40] : List ℚ)) ∈ out.indicators
          ∧ ([30, 40] : List ℚ).length ≠ out.dates.length := by
  refine ⟨by decide, ⟨_, rfl, rfl, by decide, by decide⟩⟩

/-- C7 amended: for weekly/monthly aggregation every OHLCV array and every
remapped signal series has length equal to the bucket axis; so does the
resampled composite when present and nonempty; but any other indicator
series — and an empty composite — is passed through at its original daily
length, and trendlines pass through unchanged. -/
theorem length_invariant_mixed (ds : Dataset) (tf : String) (rule : Rule)
    (htf : (tf = "weekly" ∧ rule = .wfri) ∨ (tf = "monthly" ∧ rule = .monthEnd)) :
    (resampleCore ds rule tf).opn.length = (resampleCore ds rule tf).dates.length
      ∧ (resampleCore ds rule tf).high.length = (resampleCore ds rule tf).dates.length
      ∧ (resampleCore ds rule tf).low.length = (resampleCore ds rule tf).dates.length
      ∧ (resampleCore ds rule tf).close.length = (resampleCore ds rule tf).dates.length
      ∧ (resampleCore ds rule tf).volume.length = (resampleCore ds rule tf).dates.length
      ∧ (∀ p ∈ (resampleCore ds rule tf).signals,
          (p.2 : List ℚ).length = (resampleCore ds rule tf).dates.length)
      ∧ (∀ p ∈ ds.indicators, p.1 = "Final_Composite_Value" ∧ 0 < p.2.length →
          ("Final_Composite_Value", resampleFCV tf ds.dates p.2 (bucketAxis rule ds.dates))
              ∈ (resampleCore ds rule tf).indicators
            ∧ (resampleFCV tf ds.dates p.2 (bucketAxis rule ds.dates)).length
                = (resampleCore ds rule tf).dates.length)
      ∧ (∀ p ∈ ds.indicators, ¬(p.1 = "Final_Composite_Value" ∧ 0 < p.2.length) →
          p ∈ (resampleCore ds rule tf).indicators)
      ∧ (resampleCore ds rule tf).trendlines = ds.trendlines := by
  have hntf : tf ≠ "daily" := by
    rcases htf with ⟨h, _⟩ | ⟨h, _⟩ <;> subst h <;> decide
  refine ⟨by simp [resampleCore], by simp [resampleCore], by simp [resampleCore],
    by simp [resampleCore], by simp [resampleCore], ?_, ?_, ?_, rfl⟩
  · intro p hp
    have hsig : (resampleCore ds rule tf).signals
        = ds.signals.map fun q =>
            (q.1, mapSignal tf (bucketAxis rule ds.dates) ds.dates q.2) := by
      show map_signals_to_timeframe ds.signals ds.dates (bucketAxis rule ds.dates) tf = _
      unfold map_signals_to_timeframe
      rw [if_neg hntf]
    rw [hsig] at hp
    obtain ⟨q, hq, hqe⟩ := List.mem_map.mp hp
    have hlen := (mapSignal_loop tf (bucketAxis rule ds.dates) ds.dates q.2
      ds.dates.length (List.replicate (bucketAxis rule ds.dates).length 0) (by simp)).1
    rw [← hqe]
    exact hlen
  · intro p hp hc
    have himg : (p.1, resampleFCV tf ds.dates p.2 (bucketAxis rule ds.dates))
        ∈ (resampleCore ds rule tf).indicators := by
      show _ ∈ ds.indicators.map fun q =>
        if q.1 = "Final_Composite_Value" ∧ 0 < q.2.length
        then (q.1, resampleFCV tf ds.dates q.2 (bucketAxis rule ds.dates))
        else q
      rw [List.mem_map]
      exact ⟨p, hp, by rw [if_pos hc]⟩
    rw [hc.1] at himg
    refine ⟨himg, ?_⟩
    simp only [resampleFCV, List.length_map]
    rfl
  · intro p hp hc
    show _ ∈ ds.indicators.map fun q =>
      if q.1 = "Final_Composite_Value" ∧ 0 < q.2.length
      then (q.1, resampleFCV tf ds.dates q.2 (bucketAxis rule ds.dates))
      else q
    rw [List.mem_map]
    exact ⟨p, hp, by rw [if_neg hc]⟩

/-- Witness for `length_invariant_mixed` on `dsWithRSI`, weekly. -/
theorem length_invariant_mixed_witness :
    (("weekly" = "weekly" ∧ Rule.wfri = Rule.wfri)
        ∨ ("weekly" = "monthly" ∧ Rule.wfri = Rule.monthEnd))
      ∧ (∀ p ∈ (resampleCore dsWithRSI .wfri "weekly").signals,
          (p.2 : List ℚ).length = (resampleCore dsWithRSI .wfri "weekly").dates.length)
      ∧ (∀ p ∈ dsWithRSI.indicators,
          ¬(p.1 = "Final_Composite_Value" ∧ 0 < p.2.length) →
          p ∈ (resampleCore dsWithRSI .wfri "weekly").indicators) := by
  refine ⟨Or.inl ⟨rfl, rfl⟩, ?_, ?_⟩
  · exact (length_invariant_mixed dsWithRSI "weekly" .wfri (Or.inl ⟨rfl, rfl⟩)).2.2.2.2.2.1
  · exact (length_invariant_mixed dsWithRSI "weekly" .wfri (Or.inl ⟨rfl, rfl⟩)).2.2.2.2.2.2.2.1

/-- Witness for `weekly_monthly_aggregation` on the concrete well-formed
dataset `dsJanA`, weekly. -/
theorem weekly_monthly_aggregation_witness :
    WellFormed dsJanA
      ∧ (("weekly" = "weekly" ∧ Rule.wfri = Rule.wfri)
          ∨ ("weekly" = "monthly" ∧ Rule.wfri = Rule.monthEnd))
      ∧ ∃ out, resample_data_to_timeframe dsJanA "weekly" = .ok out
          ∧ out = resampleCore dsJanA .wfri "weekly" := by
  refine ⟨by decide, Or.inl ⟨rfl, rfl⟩, ?_⟩
  obtain ⟨out, h1, h2, _⟩ := weekly_monthly_aggregation dsJanA "weekly" .wfri
    (by decide) (Or.inl ⟨rfl, rfl⟩)
  exact ⟨out, h1, h2⟩
